import Mathlib

/-!
# Verification of the morph rollout driver (`morph.go`)

A shallow embedding of the deploy / check-health control flow of
`morph.go`.  External collaborators (nix, ssh, secrets, vault,
healthchecks) are modelled by a `World` of oracles giving each call's
outcome; the driver itself is translated statement by statement.  Each
driver step returns the list of collaborator calls it performed (the
event trace), the updated loop state, and an optional abnormal halt
(`Halt.fatal` models a Go `panic`, `Halt.exit` models `os.Exit`).
-/

namespace Morph

/-- The six switch actions accepted by the `deploy` command
(`morph.go` line 34). -/
inductive Mode
  | build
  | push
  | dryActivate
  | test
  | switch
  | boot
  deriving Repr, DecidableEq

/-- A selected host, as far as the driver inspects it: its name
(`TargetHost`), the `Vault.Enable` opt-in flag, and the names of its
statically declared secrets (`host.Secrets` keys, in iteration order). -/
structure Host where
  name : String
  vaultEnable : Bool
  secrets : List String
  deriving Repr, DecidableEq

/-- One collaborator call (or observable local file action) performed by
the driver, in program order. -/
inductive Ev
  | buildStep
  | askPass
  | getPaths (host : String)
  | push (host : String)
  | vaultEnvWarning
  | vaultAuth (attempt : Nat)
  | vaultConfigure (attempt : Nat)
  | vaultWarning
  | rekey (host : String)
  | writeTemp
  | dynUpload (host : String)
  | removeTemp
  | secretSize (host : String) (secret : String)
  | staticUpload (host : String) (secret : String)
  | getSysPath (host : String)
  | activate (host : String)
  | healthCheck (host : String)
  | teardown
  deriving Repr, DecidableEq

/-- Abnormal termination: `fatal` models a Go `panic(err)`,
`exit` models `os.Exit(code)`. -/
inductive Halt
  | fatal (reason : String)
  | exit (code : Nat)
  deriving Repr, DecidableEq

/-- Final process outcome of `main`. -/
inductive Outcome
  | ok
  | exited (code : Nat)
  | crashed (reason : String)
  deriving Repr, DecidableEq

/-- Outcomes of every fallible collaborator call: `true` means the call
succeeds.  `authOk n` / `configureOk n` are the results of the n-th
authentication attempt and of the configure call that follows it.
`pushOk` is the transfer result of `nix.Push` and `dynUploadOk` the
result of the dynamic-credential `secrets.UploadSecret` call; the driver
source discards both, which the theorems below make precise. -/
structure World where
  buildOk : Bool
  getHostsOk : Bool
  vaultAddr : String
  vaultToken : String
  authOk : Nat → Bool
  configureOk : Nat → Bool
  rekeyOk : String → Bool
  openOk : Bool
  dynUploadOk : String → Bool
  getPathsOk : String → Bool
  pushOk : String → Bool
  secretSizeOk : String → String → Bool
  staticUploadOk : String → String → Bool
  sysPathOk : String → Bool
  activateOk : String → Bool
  healthOk : String → Bool

/-- The loop-carried state of `doDeploy`: whether the vault client `vc`
is non-nil, how many authentication attempts have been made, and whether
the temporary credential file currently exists on disk. -/
structure VState where
  vc : Bool
  authTries : Nat
  tempFile : Bool
  deriving Repr, DecidableEq

/-- State at loop entry: `vc = nil`, no auth attempts, no temp file. -/
def initState : VState := ⟨false, 0, false⟩

/-- The four `doPush / doAskPass / doUploadSecrets / doActivate` flags
(`morph.go` lines 46-49). -/
structure Plan where
  doPush : Bool
  doAskPass : Bool
  doUploadSecrets : Bool
  doActivate : Bool
  deriving Repr, DecidableEq

/-- The flag-setting block at the top of `doDeploy` (`morph.go` lines
77-101): all four flags start `false`; unless `--dry-run` is given, the
switch on the action mutates them, with `test`/`switch`/`boot` sharing
one body via fallthrough. -/
def resolvePlan (dryRunFlag : Bool) (switchAction : Mode)
    (askForSudoPasswd : Bool) : Plan := Id.run do
  let mut doPush := false
  let mut doAskPass := false
  let mut doUploadSecrets := false
  let mut doActivate := false
  if !dryRunFlag then
    match switchAction with
    | Mode.build => pure ()
    | Mode.push =>
      doPush := true
    | Mode.dryActivate =>
      doPush := true
      if askForSudoPasswd then
        doAskPass := true
      doActivate := true
    | Mode.test | Mode.switch | Mode.boot =>
      doPush := true
      if askForSudoPasswd then
        doAskPass := true
      doUploadSecrets := true
      doActivate := true
  return ⟨doPush, doAskPass, doUploadSecrets, doActivate⟩

/-- The spec's §4.2 activation-plan table, written from the spec's words:
build → all no; push → push only; dry-activate → push, sudo iff
requested, activate; test/switch/boot → push, sudo iff requested,
secrets, activate; dry-run forces all four flags false. -/
def planSpecTable (dryRunFlag : Bool) (switchAction : Mode)
    (askForSudoPasswd : Bool) : Plan :=
  if dryRunFlag then ⟨false, false, false, false⟩
  else
    match switchAction with
    | Mode.build => ⟨false, false, false, false⟩
    | Mode.push => ⟨true, false, false, false⟩
    | Mode.dryActivate => ⟨true, askForSudoPasswd, false, true⟩
    | Mode.test => ⟨true, askForSudoPasswd, true, true⟩
    | Mode.switch => ⟨true, askForSudoPasswd, true, true⟩
    | Mode.boot => ⟨true, askForSudoPasswd, true, true⟩

/-- `pushPaths` for a single host (`morph.go` lines 323-335):
`nix.GetPathsToPush` failure panics; then `nix.Push` is invoked and its
transfer result (`w.pushOk`) is never inspected by the caller. -/
def pushPaths (w : World) (h : Host) : List Ev × Option Halt :=
  if w.getPathsOk h.name then
    ([Ev.getPaths h.name, Ev.push h.name], none)
  else
    ([Ev.getPaths h.name], some (Halt.fatal "GetPathsToPush"))

/-- `vaultInit` (`morph.go` lines 187-213): credentials are used only
when both environment strings have length strictly greater than 1;
`vault.Auth` and then `vault.Configure` are attempted, each failure
printing a warning and returning a nil client.  Returns (events, updated
attempt counter, whether a non-nil client was obtained). -/
def vaultInit (w : World) (tries : Nat) : List Ev × Nat × Bool :=
  if 1 < w.vaultAddr.length ∧ 1 < w.vaultToken.length then
    if w.authOk tries then
      if w.configureOk tries then
        ([Ev.vaultAuth tries, Ev.vaultConfigure tries], tries + 1, true)
      else
        ([Ev.vaultAuth tries, Ev.vaultConfigure tries, Ev.vaultWarning],
          tries + 1, false)
    else
      ([Ev.vaultAuth tries, Ev.vaultWarning], tries + 1, false)
  else
    ([Ev.vaultEnvWarning], tries, false)

/-- `vaultReKey` for a single host (`morph.go` lines 215-250):
`CreateOrReKeyHostToken` failure warns and returns nil; opening the
temporary file can fail (warn, nil); otherwise the credential pair is
written to the temp file and a Secret pointing at it is returned. -/
def vaultReKey (w : World) (h : Host) : List Ev × Bool :=
  if w.rekeyOk h.name then
    if w.openOk then
      ([Ev.rekey h.name, Ev.writeTemp], true)
    else
      ([Ev.rekey h.name, Ev.vaultWarning], false)
  else
    ([Ev.rekey h.name, Ev.vaultWarning], false)

/-- The `if vc != nil` part of the vault block (`morph.go` lines
128-134): rekey, and on success call `secrets.UploadSecret` (its result
`w.dynUploadOk` is discarded) and then `os.Remove` the temporary file
unconditionally.  The `writeTemp` event marks the moment the file comes
to exist, `removeTemp` the `os.Remove`; `tempFile` tracks its final
existence. -/
def vaultUse (w : World) (s : VState) (h : Host) : List Ev × VState :=
  if s.vc then
    if (vaultReKey w h).2 then
      ((vaultReKey w h).1 ++ [Ev.dynUpload h.name, Ev.removeTemp],
        { s with tempFile := false })
    else
      ((vaultReKey w h).1, s)
  else
    ([], s)

/-- The `if host.Vault.Enable` block of the deploy loop (`morph.go`
lines 122-136): when the client is nil, try `vaultInit` first; then,
with whatever client resulted, run the rekey/upload/remove part. -/
def vaultStep (w : World) (s : VState) (h : Host) : List Ev × VState :=
  if h.vaultEnable then
    if s.vc then
      vaultUse w s h
    else
      ((vaultInit w s.authTries).1 ++
        (vaultUse w
          ⟨(vaultInit w s.authTries).2.2, (vaultInit w s.authTries).2.1,
            s.tempFile⟩ h).1,
        (vaultUse w
          ⟨(vaultInit w s.authTries).2.2, (vaultInit w s.authTries).2.1,
            s.tempFile⟩ h).2)
  else
    ([], s)

/-- `uploadSecrets` for one host's secret list (`morph.go` lines
337-359): for each secret, `GetSecretSize` failure panics and
`UploadSecret` failure panics. -/
def uploadSecrets (w : World) (hn : String) : List String → List Ev × Option Halt
  | [] => ([], none)
  | nm :: rest =>
    if w.secretSizeOk hn nm then
      if w.staticUploadOk hn nm then
        let r := uploadSecrets w hn rest
        (Ev.secretSize hn nm :: Ev.staticUpload hn nm :: r.1, r.2)
      else
        ([Ev.secretSize hn nm, Ev.staticUpload hn nm],
          some (Halt.fatal "UploadSecret"))
    else
      ([Ev.secretSize hn nm], some (Halt.fatal "GetSecretSize"))

/-- `activateConfiguration` for a single host (`morph.go` lines
361-380): `GetNixSystemPath` failure panics; `ssh.ActivateConfiguration`
failure panics. -/
def activateConfiguration (w : World) (h : Host) : List Ev × Option Halt :=
  if w.sysPathOk h.name then
    if w.activateOk h.name then
      ([Ev.getSysPath h.name, Ev.activate h.name], none)
    else
      ([Ev.getSysPath h.name, Ev.activate h.name],
        some (Halt.fatal "ActivateConfiguration"))
  else
    ([Ev.getSysPath h.name], some (Halt.fatal "GetNixSystemPath"))

/-- The health-check gate of the deploy loop (`morph.go` lines 146-153):
on `healthchecks.Perform` failure the process prints a message and calls
`os.Exit(1)`. -/
def healthGate (w : World) (h : Host) : List Ev × Option Halt :=
  ([Ev.healthCheck h.name],
    if w.healthOk h.name then none else some (Halt.exit 1))

/-- Sequencing with abnormal-halt short-circuit: run `r`; when it halts,
stop there; otherwise continue with `k` from `r`'s state, concatenating
event traces. -/
def andThen (r : List Ev × VState × Option Halt)
    (k : VState → List Ev × VState × Option Halt) :
    List Ev × VState × Option Halt :=
  match r.2.2 with
  | some _ => r
  | none =>
    let r2 := k r.2.1
    (r.1 ++ r2.1, r2.2)

/-- Lift a step that does not touch the loop state. -/
def liftStep (r : List Ev × Option Halt) (s : VState) :
    List Ev × VState × Option Halt :=
  (r.1, s, r.2)

/-- One iteration of the deploy loop body (`morph.go` lines 114-156):
push (if enabled), the vault block, static secret upload (if enabled),
activation (if enabled), then the health gate (unless skipped). -/
def runHost (w : World) (p : Plan) (skipHC : Bool) (s : VState)
    (h : Host) : List Ev × VState × Option Halt :=
  andThen (liftStep (if p.doPush then pushPaths w h else ([], none)) s)
    (fun s1 =>
      andThen (let v := vaultStep w s1 h; (v.1, v.2, none)) (fun s2 =>
        andThen
          (liftStep
            (if p.doUploadSecrets then uploadSecrets w h.name h.secrets
             else ([], none)) s2)
          (fun s3 =>
            andThen
              (liftStep
                (if p.doActivate then activateConfiguration w h
                 else ([], none)) s3)
              (fun s4 =>
                liftStep (if skipHC then ([], none) else healthGate w h)
                  s4))))

/-- The deploy loop over the selected hosts, in order. -/
def runHosts (w : World) (p : Plan) (skipHC : Bool) :
    VState → List Host → List Ev × VState × Option Halt
  | s, [] => ([], s, none)
  | s, h :: t =>
    andThen (runHost w p skipHC s h) (fun s' => runHosts w p skipHC s' t)

/-- The command-line arguments `doDeploy` reads. -/
structure DeployArgs where
  dryRun : Bool
  switchAction : Mode
  askForSudoPasswd : Bool
  skipHealthChecks : Bool
  deriving Repr, DecidableEq

/-- The plan `doDeploy` computes once, before the loop. -/
def planOf (a : DeployArgs) : Plan :=
  resolvePlan a.dryRun a.switchAction a.askForSudoPasswd

/-- `doDeploy` (`morph.go` lines 77-157): compute the flags, build once
(a failure in `build()` panics before any host-level work), ask for the
sudo password if required, then run the per-host loop. -/
def doDeploy (w : World) (a : DeployArgs) (hosts : List Host) :
    List Ev × VState × Option Halt :=
  let p := planOf a
  if w.buildOk then
    let pre0 := Ev.buildStep ::
      (if p.doAskPass then [Ev.askPass] else [])
    let r := runHosts w p a.skipHealthChecks initState hosts
    (pre0 ++ r.1, r.2)
  else
    ([Ev.buildStep], initState, some (Halt.fatal "build"))

/-- The loop of `doHealthCheck` (`morph.go` lines 165-167):
`healthchecks.Perform` is called for every host and its result is
ignored. -/
def healthLoop : List Host → List Ev
  | [] => []
  | h :: t => Ev.healthCheck h.name :: healthLoop t

/-- `doHealthCheck` (`morph.go` lines 159-168): `getHosts` failure
panics; otherwise every host is visited with no gating. -/
def doHealthCheck (w : World) (hosts : List Host) :
    List Ev × Option Halt :=
  if w.getHostsOk then
    (healthLoop hosts, none)
  else
    ([], some (Halt.fatal "getHosts"))

/-- The host an event concerns, when it is a per-host collaborator
call. -/
def evHost : Ev → Option String
  | Ev.getPaths n => some n
  | Ev.push n => some n
  | Ev.rekey n => some n
  | Ev.dynUpload n => some n
  | Ev.secretSize n _ => some n
  | Ev.staticUpload n _ => some n
  | Ev.getSysPath n => some n
  | Ev.activate n => some n
  | Ev.healthCheck n => some n
  | _ => none

/-- An event the deploy loop body may emit for host `n`: never
`teardown`, `askPass` or `buildStep`, and any per-host call names
`n`. -/
def loopEv (n : String) (e : Ev) : Bool :=
  match e with
  | Ev.teardown => false
  | Ev.askPass => false
  | Ev.buildStep => false
  | _ =>
    match evHost e with
    | some m => m == n
    | none => true

/-- `e` either names no host or names a host in `ns`. -/
def evOkFor (ns : List String) (e : Ev) : Bool :=
  match evHost e with
  | some m => ns.contains m
  | none => true

/-- Every per-host event of `es` names a host in `ns`. -/
def mentionsOnly (ns : List String) (es : List Ev) : Bool :=
  es.all (evOkFor ns)

/-- `e` is a `vault.Auth` attempt. -/
def isAuthEv : Ev → Bool
  | Ev.vaultAuth _ => true
  | _ => false

/-- Number of `vault.Auth` attempts in a trace. -/
def countAuth (es : List Ev) : Nat := es.countP isAuthEv

/-- `e` is a push, static-secret-upload or activation call (the calls
governed by the §4.2 plan table). -/
def isPSA : Ev → Bool
  | Ev.push _ => true
  | Ev.staticUpload _ _ => true
  | Ev.activate _ => true
  | _ => false

/-- No event of `es` is a push, static-secret-upload or activation
call. -/
def noPSAEvents (es : List Ev) : Bool := es.all fun e => !isPSA e

/-- `e` is a `secrets.UploadSecret` call (static or
dynamic-credential). -/
def isSecretUploadCall : Ev → Bool
  | Ev.staticUpload _ _ => true
  | Ev.dynUpload _ => true
  | _ => false

/-- A host is operationally clean for plan `p`: every plan-enabled
fallible per-host call of the loop body succeeds (the vault block is
not included: its failures are non-fatal). -/
def opsClean (w : World) (p : Plan) (h : Host) : Bool :=
  (!p.doPush || w.getPathsOk h.name) &&
  (!p.doUploadSecrets ||
    h.secrets.all (fun nm => w.secretSizeOk h.name nm &&
      w.staticUploadOk h.name nm)) &&
  (!p.doActivate || (w.sysPathOk h.name && w.activateOk h.name))

/-- The command `main` dispatches on. -/
inductive Cmd
  | deployCmd (a : DeployArgs)
  | checkHealthCmd
  deriving Repr

/-- `main` (`morph.go` lines 66-75): dispatch the command; the
`assets.Teardown` call after the switch is reached only when the
command returns normally (neither `os.Exit` nor a panic occurred). -/
def mainRun (w : World) (c : Cmd) (hosts : List Host) :
    List Ev × Outcome :=
  let r :=
    match c with
    | Cmd.deployCmd a =>
      let d := doDeploy w a hosts
      (d.1, d.2.2)
    | Cmd.checkHealthCmd => doHealthCheck w hosts
  match r.2 with
  | none => (r.1 ++ [Ev.teardown], Outcome.ok)
  | some (Halt.fatal m) => (r.1, Outcome.crashed m)
  | some (Halt.exit n) => (r.1, Outcome.exited n)

/-! ## Concrete instances used to exercise the model -/

/-- A world where every collaborator call succeeds and the vault
environment variables are set to realistic values. -/
def wOK : World :=
  ⟨true, true, "http://vault:8200", "s.kjhdfkjh", fun _ => true,
    fun _ => true, fun _ => true, true, fun _ => true, fun _ => true,
    fun _ => true, fun _ _ => true, fun _ _ => true, fun _ => true,
    fun _ => true, fun _ => true⟩

/-- Plain host `a` (no vault, no secrets). -/
def hostA : Host := ⟨"a", false, []⟩

/-- Plain host `b`. -/
def hostB : Host := ⟨"b", false, []⟩

/-- Plain host `c`. -/
def hostC : Host := ⟨"c", false, []⟩

/-- Vault-enabled host `a`. -/
def hostVA : Host := ⟨"a", true, []⟩

/-- Vault-enabled host `b`. -/
def hostVB : Host := ⟨"b", true, []⟩

/-- Host `s` with one declared static secret. -/
def hostS : Host := ⟨"s", false, ["app.env"]⟩

/-- `deploy <f> build` (health checks skipped to isolate the plan). -/
def argsBuild : DeployArgs := ⟨false, Mode.build, false, true⟩

/-- `deploy <f> switch` with health checks enabled. -/
def argsSwitch : DeployArgs := ⟨false, Mode.switch, false, false⟩

/-- `deploy <f> switch --skip-health-checks`. -/
def argsSwitchSkip : DeployArgs := ⟨false, Mode.switch, false, true⟩

/-- `deploy <f> switch --dry-run --skip-health-checks`. -/
def argsDry : DeployArgs := ⟨true, Mode.switch, false, true⟩

/-- World in which the push transfer to host `a` fails. -/
def wPushFail : World := { wOK with pushOk := fun n => n != "a" }

/-- World in which the first vault authentication attempt fails and the
second succeeds. -/
def wAuthRetry : World := { wOK with authOk := fun n => n != 0 }

/-- World in which host `b`'s health check fails. -/
def wHealthB : World := { wOK with healthOk := fun n => n != "b" }

/-- World in which every dynamic-credential upload fails. -/
def wDynFail : World := { wOK with dynUploadOk := fun _ => false }

/-- World with a one-character vault token in the environment. -/
def wShortTok : World := { wOK with vaultToken := "x" }

/-- World in which every static secret upload fails. -/
def wUploadFail : World := { wOK with staticUploadOk := fun _ _ => false }

/-- World in which activation on host `b` fails. -/
def wActFail : World := { wOK with activateOk := fun n => n != "b" }

/-- World in which every health check fails. -/
def wHealthAllFail : World := { wOK with healthOk := fun _ => false }

/-- World in which every push transfer fails. -/
def wPushAllFail : World := { wOK with pushOk := fun _ => false }

/-- A loop state in which a vault session is already established. -/
def sEstablished : VState := ⟨true, 1, false⟩

/-! ## Basic sequencing lemmas -/

theorem andThen_of_halt {r : List Ev × VState × Option Halt}
    {k : VState → List Ev × VState × Option Halt} {x : Halt}
    (h : r.2.2 = some x) : andThen r k = r := by
  unfold andThen
  rw [h]

theorem andThen_of_ok {r : List Ev × VState × Option Halt}
    {k : VState → List Ev × VState × Option Halt}
    (h : r.2.2 = none) :
    andThen r k = (r.1 ++ (k r.2.1).1, (k r.2.1).2) := by
  unfold andThen
  rw [h]

theorem andThen_halt_eq (r : List Ev × VState × Option Halt)
    (k : VState → List Ev × VState × Option Halt) :
    (andThen r k).2.2 =
      match r.2.2 with
      | some x => some x
      | none => (k r.2.1).2.2 := by
  unfold andThen
  cases h : r.2.2 <;> simp [h]

theorem andThen_all (q : Ev → Bool) (r : List Ev × VState × Option Halt)
    (k : VState → List Ev × VState × Option Halt)
    (h1 : r.1.all q = true) (h2 : ∀ s', ((k s').1.all q) = true) :
    ((andThen r k).1.all q) = true := by
  unfold andThen
  cases h : r.2.2
  · simp only [List.all_append, h1, h2, Bool.and_self]
  · exact h1

theorem andThen_countP (q : Ev → Bool)
    (r : List Ev × VState × Option Halt)
    (k : VState → List Ev × VState × Option Halt) :
    ((andThen r k).1.countP q) ≤
      r.1.countP q + ((k r.2.1).1.countP q) := by
  unfold andThen
  cases h : r.2.2
  · simp [List.countP_append]
  · simp

theorem runHosts_nil (w : World) (p : Plan) (sk : Bool) (s : VState) :
    runHosts w p sk s [] = ([], s, none) := rfl

theorem runHosts_cons (w : World) (p : Plan) (sk : Bool) (s : VState)
    (h : Host) (t : List Host) :
    runHosts w p sk s (h :: t) =
      andThen (runHost w p sk s h) (fun s' => runHosts w p sk s' t) :=
  rfl

theorem andThen_assoc (r : List Ev × VState × Option Halt)
    (k1 k2 : VState → List Ev × VState × Option Halt) :
    andThen (andThen r k1) k2 =
      andThen r (fun s => andThen (k1 s) k2) := by
  unfold andThen
  cases h : r.2.2
  · cases h2 : (k1 r.2.1).2.2 <;> simp [h2, List.append_assoc]
  · simp [h]

theorem runHosts_append (w : World) (p : Plan) (sk : Bool)
    (l1 l2 : List Host) (s : VState) :
    runHosts w p sk s (l1 ++ l2) =
      andThen (runHosts w p sk s l1)
        (fun s' => runHosts w p sk s' l2) := by
  induction l1 generalizing s with
  | nil =>
    simp only [List.nil_append, runHosts_nil]
    rw [andThen_of_ok rfl]
    simp
  | cons h t ih =>
    simp only [List.cons_append, runHosts_cons]
    rw [andThen_assoc]
    congr 1
    funext s'
    exact ih s'

/-! ## Per-step facts -/

theorem liftStep_halt (r : List Ev × Option Halt) (s : VState) :
    (liftStep r s).2.2 = r.2 := rfl

theorem liftStep_state (r : List Ev × Option Halt) (s : VState) :
    (liftStep r s).2.1 = s := rfl

theorem pushPaths_halt_none {w : World} {h : Host}
    (hok : w.getPathsOk h.name = true) : (pushPaths w h).2 = none := by
  unfold pushPaths
  rw [if_pos hok]

theorem uploadSecrets_halt_none {w : World} {hn : String}
    {l : List String}
    (hall : (l.all fun nm => w.secretSizeOk hn nm &&
      w.staticUploadOk hn nm) = true) :
    (uploadSecrets w hn l).2 = none := by
  induction l with
  | nil => rfl
  | cons nm rest ih =>
    simp only [List.all_cons, Bool.and_eq_true] at hall
    obtain ⟨⟨h1, h2⟩, h3⟩ := hall
    unfold uploadSecrets
    rw [if_pos h1, if_pos h2]
    exact ih h3

theorem activateConfiguration_halt_none {w : World} {h : Host}
    (h1 : w.sysPathOk h.name = true) (h2 : w.activateOk h.name = true) :
    (activateConfiguration w h).2 = none := by
  unfold activateConfiguration
  rw [if_pos h1, if_pos h2]

theorem pushPaths_loopEv (w : World) (h : Host) :
    ((pushPaths w h).1.all (loopEv h.name)) = true := by
  unfold pushPaths
  split <;> simp [loopEv, evHost]

theorem vaultInit_loopEv (w : World) (t : Nat) (n : String) :
    ((vaultInit w t).1.all (loopEv n)) = true := by
  unfold vaultInit
  split <;> [skip; simp [loopEv, evHost]]
  split <;> [skip; simp [loopEv, evHost]]
  split <;> simp [loopEv, evHost]

theorem vaultReKey_loopEv (w : World) (h : Host) :
    ((vaultReKey w h).1.all (loopEv h.name)) = true := by
  unfold vaultReKey
  split <;> [skip; simp [loopEv, evHost]]
  split <;> simp [loopEv, evHost]

theorem vaultUse_loopEv (w : World) (s : VState) (h : Host) :
    ((vaultUse w s h).1.all (loopEv h.name)) = true := by
  unfold vaultUse
  split <;> [skip; rfl]
  split <;> simp [List.all_append, vaultReKey_loopEv, loopEv, evHost]

theorem vaultStep_loopEv (w : World) (s : VState) (h : Host) :
    ((vaultStep w s h).1.all (loopEv h.name)) = true := by
  unfold vaultStep
  split <;> [skip; rfl]
  split
  · exact vaultUse_loopEv w s h
  · simp [List.all_append, vaultInit_loopEv, vaultUse_loopEv]

theorem uploadSecrets_loopEv (w : World) (hn : String) (l : List String) :
    ((uploadSecrets w hn l).1.all (loopEv hn)) = true := by
  induction l with
  | nil => rfl
  | cons nm rest ih =>
    unfold uploadSecrets
    split <;> [skip; simp [loopEv, evHost]]
    split <;> simp_all [loopEv, evHost]

theorem activateConfiguration_loopEv (w : World) (h : Host) :
    ((activateConfiguration w h).1.all (loopEv h.name)) = true := by
  unfold activateConfiguration
  split <;> [skip; simp [loopEv, evHost]]
  split <;> simp [loopEv, evHost]

theorem healthGate_loopEv (w : World) (h : Host) :
    ((healthGate w h).1.all (loopEv h.name)) = true := by
  simp [healthGate, loopEv, evHost]

/-! ## vault.Auth attempt counting -/

theorem countAuth_append (a b : List Ev) :
    countAuth (a ++ b) = countAuth a + countAuth b := by
  unfold countAuth
  exact List.countP_append _ _ _

theorem countAuth_eq_zero_of_all {es : List Ev}
    (h : (es.all fun e => !isAuthEv e) = true) : countAuth es = 0 := by
  unfold countAuth
  rw [List.countP_eq_zero]
  intro e he
  have := List.all_eq_true.mp h e he
  simpa using this

theorem pushPaths_noAuth (w : World) (h : Host) :
    ((pushPaths w h).1.all fun e => !isAuthEv e) = true := by
  unfold pushPaths
  split <;> simp [isAuthEv]

theorem vaultReKey_noAuth (w : World) (h : Host) :
    ((vaultReKey w h).1.all fun e => !isAuthEv e) = true := by
  unfold vaultReKey
  split <;> [skip; simp [isAuthEv]]
  split <;> simp [isAuthEv]

theorem vaultUse_noAuth (w : World) (s : VState) (h : Host) :
    ((vaultUse w s h).1.all fun e => !isAuthEv e) = true := by
  unfold vaultUse
  split <;> [skip; rfl]
  split
  · simp only [List.all_append, vaultReKey_noAuth, Bool.true_and]
    simp [isAuthEv]
  · simp only [vaultReKey_noAuth]

theorem uploadSecrets_noAuth (w : World) (hn : String)
    (l : List String) :
    ((uploadSecrets w hn l).1.all fun e => !isAuthEv e) = true := by
  induction l with
  | nil => rfl
  | cons nm rest ih =>
    unfold uploadSecrets
    split <;> [skip; simp [isAuthEv]]
    split <;> simp_all [isAuthEv]

theorem activateConfiguration_noAuth (w : World) (h : Host) :
    ((activateConfiguration w h).1.all fun e => !isAuthEv e) = true := by
  unfold activateConfiguration
  split <;> [skip; simp [isAuthEv]]
  split <;> simp [isAuthEv]

theorem healthGate_noAuth (w : World) (h : Host) :
    ((healthGate w h).1.all fun e => !isAuthEv e) = true := by
  simp [healthGate, isAuthEv]

theorem vaultInit_countAuth_le (w : World) (t : Nat) :
    countAuth (vaultInit w t).1 ≤ 1 := by
  unfold vaultInit
  split <;> [skip; simp [countAuth, isAuthEv]]
  split <;> [skip; simp [countAuth, isAuthEv]]
  split <;> simp [countAuth, isAuthEv]

theorem vaultUse_countAuth (w : World) (s : VState) (h : Host) :
    countAuth (vaultUse w s h).1 = 0 :=
  countAuth_eq_zero_of_all (vaultUse_noAuth w s h)

theorem vaultStep_countAuth_le (w : World) (s : VState) (h : Host) :
    countAuth (vaultStep w s h).1 ≤
      (if h.vaultEnable then 1 else 0) := by
  unfold vaultStep
  split <;> [skip; simp [countAuth, isAuthEv]]
  split
  · simp [vaultUse_countAuth]
  · simp only [countAuth_append, vaultUse_countAuth, Nat.add_zero,
      if_pos]
    exact vaultInit_countAuth_le w s.authTries

/-! ## Vault-client state facts -/

theorem vaultUse_state (w : World) (s : VState) (h : Host) :
    (vaultUse w s h).2.vc = s.vc ∧
      (vaultUse w s h).2.authTries = s.authTries := by
  unfold vaultUse
  split <;> [skip; exact ⟨rfl, rfl⟩]
  split <;> exact ⟨rfl, rfl⟩

theorem vaultStep_vc_of_true {w : World} {s : VState} {h : Host}
    (hvc : s.vc = true) :
    (vaultStep w s h).2.vc = true ∧
      ((vaultStep w s h).1.all fun e => !isAuthEv e) = true := by
  by_cases hve : h.vaultEnable = true
  · rw [vaultStep, if_pos hve, if_pos hvc]
    exact ⟨(vaultUse_state w s h).1.trans hvc, vaultUse_noAuth w s h⟩
  · rw [vaultStep, if_neg hve]
    exact ⟨hvc, rfl⟩

/-! ## Loop-body (`runHost`) facts -/

theorem ifStep_all (q : Ev → Bool) (b : Bool) (r : List Ev × Option Halt)
    (hr : (r.1.all q) = true) :
    (((if b then r else (([] : List Ev), (none : Option Halt))).1.all q))
      = true := by
  cases b <;> simp [hr]

theorem andThen_liftStep_all (q : Ev → Bool) (r : List Ev × Option Halt)
    (s : VState) (k : VState → List Ev × VState × Option Halt)
    (h1 : (r.1.all q) = true) (h2 : ((k s).1.all q) = true) :
    ((andThen (liftStep r s) k).1.all q) = true := by
  unfold andThen liftStep
  cases hr : r.2
  · simp only [List.all_append, h1, h2, Bool.and_self]
  · exact h1

theorem andThen_liftStep_state (r : List Ev × Option Halt) (s : VState)
    (k : VState → List Ev × VState × Option Halt) :
    (andThen (liftStep r s) k).2.1 = s ∨
      (andThen (liftStep r s) k).2.1 = (k s).2.1 := by
  unfold andThen liftStep
  cases hr : r.2
  · right
    rfl
  · left
    rfl

theorem andThen_liftStep_ok {r : List Ev × Option Halt} (s : VState)
    (k : VState → List Ev × VState × Option Halt) (hr : r.2 = none) :
    andThen (liftStep r s) k = (r.1 ++ (k s).1, (k s).2) :=
  andThen_of_ok hr

theorem ifStepElse_all (q : Ev → Bool) (b : Bool)
    (r : List Ev × Option Halt) (hr : (r.1.all q) = true) :
    (((if b then (([] : List Ev), (none : Option Halt)) else r).1.all q))
      = true := by
  cases b <;> simp [hr]

theorem chain3_all (q : Ev → Bool) (r3 r4 r5 : List Ev × Option Halt)
    (s' : VState) (a3 : (r3.1.all q) = true) (a4 : (r4.1.all q) = true)
    (a5 : (r5.1.all q) = true) :
    ((andThen (liftStep r3 s')
        (fun s3 => andThen (liftStep r4 s3)
          (fun s4 => liftStep r5 s4))).1.all q) = true := by
  apply andThen_liftStep_all _ _ _ _ a3
  apply andThen_liftStep_all _ _ _ _ a4
  exact a5

theorem chain3_state (r3 r4 r5 : List Ev × Option Halt) (s' : VState) :
    (andThen (liftStep r3 s')
      (fun s3 => andThen (liftStep r4 s3)
        (fun s4 => liftStep r5 s4))).2.1 = s' := by
  cases h3 : r3.2
  · rw [andThen_liftStep_ok s' _ h3]
    dsimp only
    cases h4 : r4.2
    · rw [andThen_liftStep_ok s' _ h4]
      rfl
    · rw [andThen_of_halt (show (liftStep r4 s').2.2 = some _ from h4)]
      rfl
  · rw [andThen_of_halt (show (liftStep r3 s').2.2 = some _ from h3)]
    rfl

theorem chain3_halt (r3 r4 r5 : List Ev × Option Halt) (s' : VState)
    (h3 : r3.2 = none) (h4 : r4.2 = none) :
    (andThen (liftStep r3 s')
      (fun s3 => andThen (liftStep r4 s3)
        (fun s4 => liftStep r5 s4))).2.2 = r5.2 := by
  rw [andThen_liftStep_ok s' _ h3]
  dsimp only
  rw [andThen_liftStep_ok s' _ h4]
  rfl

theorem runHost_all_if (q : Ev → Bool) (w : World) (p : Plan)
    (sk : Bool) (s : VState) (h : Host)
    (aPush : (((if p.doPush then pushPaths w h
      else (([] : List Ev), (none : Option Halt))).1).all q) = true)
    (aVault : ((vaultStep w s h).1.all q) = true)
    (aUp : (((if p.doUploadSecrets then uploadSecrets w h.name h.secrets
      else (([] : List Ev), (none : Option Halt))).1).all q) = true)
    (aAct : (((if p.doActivate then activateConfiguration w h
      else (([] : List Ev), (none : Option Halt))).1).all q) = true)
    (aHC : (((if sk then (([] : List Ev), (none : Option Halt))
      else healthGate w h).1).all q) = true) :
    ((runHost w p sk s h).1.all q) = true := by
  unfold runHost
  apply andThen_liftStep_all _ _ _ _ aPush
  rw [andThen_of_ok rfl]
  dsimp only
  rw [List.all_append, Bool.and_eq_true]
  exact ⟨aVault, chain3_all q _ _ _ _ aUp aAct aHC⟩

theorem runHost_all (q : Ev → Bool) (w : World) (p : Plan) (sk : Bool)
    (s : VState) (h : Host)
    (aPush : ((pushPaths w h).1.all q) = true)
    (aVault : ((vaultStep w s h).1.all q) = true)
    (aUp : ((uploadSecrets w h.name h.secrets).1.all q) = true)
    (aAct : ((activateConfiguration w h).1.all q) = true)
    (aHC : ((healthGate w h).1.all q) = true) :
    ((runHost w p sk s h).1.all q) = true :=
  runHost_all_if q w p sk s h (ifStep_all _ _ _ aPush) aVault
    (ifStep_all _ _ _ aUp) (ifStep_all _ _ _ aAct)
    (ifStepElse_all _ _ _ aHC)

theorem runHost_loopEv (w : World) (p : Plan) (sk : Bool) (s : VState)
    (h : Host) :
    ((runHost w p sk s h).1.all (loopEv h.name)) = true :=
  runHost_all _ w p sk s h (pushPaths_loopEv w h) (vaultStep_loopEv w s h)
    (uploadSecrets_loopEv w h.name h.secrets)
    (activateConfiguration_loopEv w h) (healthGate_loopEv w h)

theorem runHost_state (w : World) (p : Plan) (sk : Bool) (s : VState)
    (h : Host) :
    (runHost w p sk s h).2.1 = s ∨
      (runHost w p sk s h).2.1 = (vaultStep w s h).2 := by
  unfold runHost
  cases hA : (if p.doPush then pushPaths w h else ([], none)).2
  · rw [andThen_liftStep_ok s _ hA]
    dsimp only
    rw [andThen_of_ok rfl]
    dsimp only
    right
    exact chain3_state _ _ _ _
  · rw [andThen_of_halt
      (show (liftStep (if p.doPush then pushPaths w h else ([], none))
        s).2.2 = some _ from hA)]
    left
    rfl

theorem runHost_vc (w : World) (p : Plan) (sk : Bool) {s : VState}
    (h : Host) (hvc : s.vc = true) :
    (runHost w p sk s h).2.1.vc = true ∧
      countAuth (runHost w p sk s h).1 = 0 := by
  constructor
  · rcases runHost_state w p sk s h with h1 | h1
    · rw [h1]
      exact hvc
    · rw [h1]
      exact (vaultStep_vc_of_true hvc).1
  · apply countAuth_eq_zero_of_all
    exact runHost_all _ w p sk s h (pushPaths_noAuth w h)
      (vaultStep_vc_of_true hvc).2 (uploadSecrets_noAuth w h.name h.secrets)
      (activateConfiguration_noAuth w h) (healthGate_noAuth w h)

theorem runHost_countAuth_le (w : World) (p : Plan) (sk : Bool)
    (s : VState) (h : Host) :
    countAuth (runHost w p sk s h).1 ≤
      (if h.vaultEnable then 1 else 0) := by
  unfold runHost
  refine le_trans (andThen_countP isAuthEv _ _) ?a
  have hA : countAuth
      (liftStep (if p.doPush then pushPaths w h else ([], none)) s).1
        = 0 :=
    countAuth_eq_zero_of_all (ifStep_all _ _ _ (pushPaths_noAuth w h))
  rw [show (liftStep (if p.doPush then pushPaths w h else ([], none))
      s).2.1 = s from rfl]
  rw [andThen_of_ok rfl]
  dsimp only
  rw [List.countP_append]
  have hTail : countAuth
      (andThen
        (liftStep
          (if p.doUploadSecrets then uploadSecrets w h.name h.secrets
           else ([], none)) (vaultStep w s h).2)
        (fun s3 =>
          andThen
            (liftStep
              (if p.doActivate then activateConfiguration w h
               else ([], none)) s3)
            (fun s4 =>
              liftStep (if sk then ([], none) else healthGate w h)
                s4))).1 = 0 :=
    countAuth_eq_zero_of_all
      (chain3_all _ _ _ _ _
        (ifStep_all _ _ _ (uploadSecrets_noAuth w h.name h.secrets))
        (ifStep_all _ _ _ (activateConfiguration_noAuth w h))
        (ifStepElse_all _ _ _ (healthGate_noAuth w h)))
  have hV := vaultStep_countAuth_le w s h
  simp only [countAuth] at hA hTail hV
  omega

theorem runHost_halt_eq {w : World} {p : Plan} {sk : Bool} {s : VState}
    {h : Host} (hc : opsClean w p h = true) :
    (runHost w p sk s h).2.2 = (if sk then none else (healthGate w h).2)
    := by
  have hc' := hc
  simp only [opsClean, Bool.and_eq_true, Bool.or_eq_true,
    Bool.not_eq_eq_eq_not, Bool.not_true] at hc'
  obtain ⟨⟨hcp, hcu⟩, hca⟩ := hc'
  have hA : (if p.doPush then pushPaths w h
      else (([] : List Ev), (none : Option Halt))).2 = none := by
    cases hp : p.doPush
    · simp
    · rcases hcp with hno | hok
      · rw [hp] at hno
        exact absurd hno (by simp)
      · simp [pushPaths_halt_none hok]
  have hB : (if p.doUploadSecrets then uploadSecrets w h.name h.secrets
      else (([] : List Ev), (none : Option Halt))).2 = none := by
    cases hp : p.doUploadSecrets
    · simp
    · rcases hcu with hno | hok
      · rw [hp] at hno
        exact absurd hno (by simp)
      · simp [uploadSecrets_halt_none hok]
  have hC : (if p.doActivate then activateConfiguration w h
      else (([] : List Ev), (none : Option Halt))).2 = none := by
    cases hp : p.doActivate
    · simp
    · rcases hca with hno | hok
      · rw [hp] at hno
        exact absurd hno (by simp)
      · simp [activateConfiguration_halt_none hok.1 hok.2]
  unfold runHost
  rw [andThen_liftStep_ok s _ hA]
  dsimp only
  rw [andThen_of_ok rfl]
  dsimp only
  rw [chain3_halt _ _ _ _ hB hC]
  cases sk <;> rfl

theorem runHost_halt_none {w : World} {p : Plan} {sk : Bool}
    {s : VState} {h : Host} (hc : opsClean w p h = true)
    (hh : (sk || w.healthOk h.name) = true) :
    (runHost w p sk s h).2.2 = none := by
  rw [runHost_halt_eq hc]
  cases hsk : sk
  · rw [hsk] at hh
    rw [Bool.false_or] at hh
    simp [healthGate, hh]
  · simp

theorem runHost_health_exit {w : World} {p : Plan} {sk : Bool}
    {s : VState} {h : Host} (hc : opsClean w p h = true)
    (hsk : sk = false) (hbad : w.healthOk h.name = false) :
    (runHost w p sk s h).2.2 = some (Halt.exit 1) := by
  rw [runHost_halt_eq hc, hsk]
  simp [healthGate, hbad]

/-! ## Loop (`runHosts`) facts -/

theorem all_imp {es : List Ev} {q r : Ev → Bool} (h : (es.all q) = true)
    (himp : ∀ e, q e = true → r e = true) : (es.all r) = true := by
  rw [List.all_eq_true] at *
  exact fun e he => himp e (h e he)

theorem loopEv_implies_evOk {ns : List String} {n : String}
    (hn : ns.contains n = true) :
    ∀ e, loopEv n e = true → evOkFor ns e = true := by
  intro e hq
  cases e <;> simp_all [loopEv, evHost, evOkFor]

theorem runHosts_evOk (w : World) (p : Plan) (sk : Bool)
    (ns : List String) :
    ∀ (s : VState) (l : List Host),
      (∀ h ∈ l, ns.contains h.name = true) →
      ((runHosts w p sk s l).1.all (evOkFor ns)) = true := by
  intro s l
  induction l generalizing s with
  | nil => intro _; rfl
  | cons h t ih =>
    intro hmem
    rw [runHosts_cons]
    apply andThen_all
    · exact all_imp (runHost_loopEv w p sk s h)
        (loopEv_implies_evOk (hmem h (List.mem_cons_self h t)))
    · intro s'
      exact ih s' (fun h' hh' => hmem h' (List.mem_cons_of_mem _ hh'))

theorem runHosts_all (w : World) (p : Plan) (sk : Bool) (q : Ev → Bool) :
    ∀ (s : VState) (l : List Host),
      (∀ h ∈ l, ∀ s', ((runHost w p sk s' h).1.all q) = true) →
      ((runHosts w p sk s l).1.all q) = true := by
  intro s l
  induction l generalizing s with
  | nil => intro _; rfl
  | cons h t ih =>
    intro hall
    rw [runHosts_cons]
    apply andThen_all
    · exact hall h (List.mem_cons_self h t) s
    · intro s'
      exact ih s' (fun h' hh' => hall h' (List.mem_cons_of_mem _ hh'))

theorem runHosts_vc {w : World} {p : Plan} {sk : Bool} :
    ∀ {l : List Host} {s : VState}, s.vc = true →
      (runHosts w p sk s l).2.1.vc = true ∧
        countAuth (runHosts w p sk s l).1 = 0 := by
  intro l
  induction l with
  | nil => exact fun hvc => ⟨hvc, rfl⟩
  | cons h t ih =>
    intro s hvc
    rw [runHosts_cons]
    have hr := runHost_vc w p sk h hvc
    cases hh : (runHost w p sk s h).2.2
    · rw [andThen_of_ok hh]
      dsimp only
      have ht := ih hr.1
      refine ⟨ht.1, ?a⟩
      rw [countAuth_append, hr.2, ht.2]
    · rw [andThen_of_halt hh]
      exact hr

theorem runHosts_countAuth_le (w : World) (p : Plan) (sk : Bool) :
    ∀ (l : List Host) (s : VState),
      countAuth (runHosts w p sk s l).1 ≤
        (l.filter (fun h => h.vaultEnable)).length := by
  intro l
  induction l with
  | nil =>
    intro s
    simp [runHosts_nil, countAuth]
  | cons h t ih =>
    intro s
    rw [runHosts_cons]
    have h1 := andThen_countP isAuthEv (runHost w p sk s h)
      (fun s' => runHosts w p sk s' t)
    have h2 := runHost_countAuth_le w p sk s h
    have h3 := ih (runHost w p sk s h).2.1
    have hlen : ((h :: t).filter (fun x => x.vaultEnable)).length =
        (if h.vaultEnable then 1 else 0) +
          (t.filter (fun x => x.vaultEnable)).length := by
      cases hve : h.vaultEnable
      · simp [List.filter_cons, hve]
      · simp [List.filter_cons, hve]
        omega
    simp only [countAuth] at h1 h2 h3 ⊢
    omega

theorem runHosts_clean_none {w : World} {p : Plan} {sk : Bool} :
    ∀ {l : List Host} {s : VState},
      (∀ h ∈ l, opsClean w p h = true ∧ (sk || w.healthOk h.name) = true)
      → (runHosts w p sk s l).2.2 = none := by
  intro l
  induction l with
  | nil => exact fun _ => rfl
  | cons h t ih =>
    intro s hall
    rw [runHosts_cons, andThen_halt_eq]
    have hh := hall h (List.mem_cons_self h t)
    rw [runHost_halt_none hh.1 hh.2]
    exact ih (fun h' hh' => hall h' (List.mem_cons_of_mem _ hh'))

theorem runHosts_cut {w : World} {p : Plan} {sk : Bool}
    (pre post : List Host) (h : Host) (s : VState) (x : Halt)
    (hpre : (runHosts w p sk s pre).2.2 = none)
    (hh : (runHost w p sk (runHosts w p sk s pre).2.1 h).2.2 = some x) :
    runHosts w p sk s (pre ++ h :: post) =
      runHosts w p sk s (pre ++ [h]) ∧
    (runHosts w p sk s (pre ++ [h])).2.2 = some x := by
  have key : ∀ post', runHosts w p sk s (pre ++ h :: post') =
      ((runHosts w p sk s pre).1 ++
        (runHost w p sk (runHosts w p sk s pre).2.1 h).1,
        (runHost w p sk (runHosts w p sk s pre).2.1 h).2.1, some x) := by
    intro post'
    rw [runHosts_append, andThen_of_ok hpre]
    rw [runHosts_cons, andThen_of_halt hh]
    have he : (runHost w p sk (runHosts w p sk s pre).2.1 h).2 =
        ((runHost w p sk (runHosts w p sk s pre).2.1 h).2.1, some x) := by
      rw [← hh]
    rw [he]
  exact ⟨(key post).trans (key []).symm, by rw [key []]⟩

/-! ## Top-level helpers -/

theorem doDeploy_eq (w : World) (a : DeployArgs) (hosts : List Host)
    (hb : w.buildOk = true) :
    doDeploy w a hosts =
      ((Ev.buildStep ::
        (if (planOf a).doAskPass then [Ev.askPass] else [])) ++
          (runHosts w (planOf a) a.skipHealthChecks initState hosts).1,
        (runHosts w (planOf a) a.skipHealthChecks initState hosts).2) := by
  simp only [doDeploy]
  rw [if_pos hb]

theorem healthLoop_map (l : List Host) :
    healthLoop l = l.map (fun h => Ev.healthCheck h.name) := by
  induction l with
  | nil => rfl
  | cons h t ih =>
    unfold healthLoop
    rw [ih, List.map_cons]

/-! ## Events that are not push / static-upload / activation calls -/

theorem vaultInit_notPSA (w : World) (t : Nat) :
    ((vaultInit w t).1.all fun e => !isPSA e) = true := by
  unfold vaultInit
  split <;> [skip; simp [isPSA]]
  split <;> [skip; simp [isPSA]]
  split <;> simp [isPSA]

theorem vaultReKey_notPSA (w : World) (h : Host) :
    ((vaultReKey w h).1.all fun e => !isPSA e) = true := by
  unfold vaultReKey
  split <;> [skip; simp [isPSA]]
  split <;> simp [isPSA]

theorem vaultUse_notPSA (w : World) (s : VState) (h : Host) :
    ((vaultUse w s h).1.all fun e => !isPSA e) = true := by
  unfold vaultUse
  split <;> [skip; rfl]
  split
  · simp only [List.all_append, vaultReKey_notPSA, Bool.true_and]
    simp [isPSA]
  · simp only [vaultReKey_notPSA]

theorem vaultStep_notPSA (w : World) (s : VState) (h : Host) :
    ((vaultStep w s h).1.all fun e => !isPSA e) = true := by
  unfold vaultStep
  split <;> [skip; rfl]
  split
  · exact vaultUse_notPSA w s h
  · simp [List.all_append, vaultInit_notPSA, vaultUse_notPSA]

theorem healthGate_notPSA (w : World) (h : Host) :
    ((healthGate w h).1.all fun e => !isPSA e) = true := by
  simp [healthGate, isPSA]

/-- With all four plan flags false, the loop body emits no push, no
static-secret-upload and no activation call. -/
theorem runHost_planFalse_notPSA (w : World) (sk : Bool) (s : VState)
    (h : Host) :
    ((runHost w ⟨false, false, false, false⟩ sk s h).1.all
      fun e => !isPSA e) = true := by
  apply runHost_all_if
  · rfl
  · exact vaultStep_notPSA w s h
  · rfl
  · rfl
  · exact ifStepElse_all _ _ _ (healthGate_notPSA w h)

/-! ## Teardown exclusion -/

theorem loopEv_ne_teardown {n : String} :
    ∀ e, loopEv n e = true → (!(e == Ev.teardown)) = true := by
  intro e hq
  cases e <;> simp_all [loopEv]

theorem not_mem_of_all_ne {es : List Ev}
    (h : (es.all fun e => !(e == Ev.teardown)) = true) :
    Ev.teardown ∉ es := by
  intro hm
  have := List.all_eq_true.mp h _ hm
  simp at this

theorem doDeploy_no_teardown (w : World) (a : DeployArgs)
    (hosts : List Host) : Ev.teardown ∉ (doDeploy w a hosts).1 := by
  apply not_mem_of_all_ne
  simp only [doDeploy]
  cases hb : w.buildOk
  · simp
  · simp only [if_pos]
    rw [List.all_append, Bool.and_eq_true]
    refine ⟨?x, ?y⟩
    · rw [List.all_cons, Bool.and_eq_true]
      refine ⟨rfl, ?z⟩
      cases (planOf a).doAskPass <;> simp
    · exact runHosts_all w (planOf a) a.skipHealthChecks _ initState hosts
        (fun h _ s' =>
          all_imp (runHost_loopEv w (planOf a) a.skipHealthChecks s' h)
            loopEv_ne_teardown)

theorem doHealthCheck_no_teardown (w : World) (hosts : List Host) :
    Ev.teardown ∉ (doHealthCheck w hosts).1 := by
  apply not_mem_of_all_ne
  unfold doHealthCheck
  cases hg : w.getHostsOk
  · simp
  · rw [if_pos rfl, healthLoop_map]
    rw [List.all_eq_true]
    intro e he
    obtain ⟨h, _, rfl⟩ := List.mem_map.mp he
    simp

/-! ## The claims -/

/-- C5: the activation plan is a pure function of the dry-run flag, the
requested mode and the interactive-sudo request, computed once with no
per-host variation (it is a function of the arguments only, evaluated
before the loop in `doDeploy`), and it equals exactly the table of
§4.2: build → (no,no,no,no); push → (yes,no,no,no); dry-activate →
(yes, iff sudo requested, no, yes); test/switch/boot → (yes, iff sudo
requested, yes, yes); dry-run forces all four flags false. -/
theorem C5_plan_equals_spec_table :
    ∀ (d : Bool) (m : Mode) (a : Bool),
      resolvePlan d m a = planSpecTable d m a := by
  intro d m a
  cases d <;> cases m <;> cases a <;> rfl

/-- C7: in the standalone check-health flow, for every host list and
any pattern of per-host health-check failures (any world `w`), the
iteration never halts: every selected host is visited, in order, up to
and including the last, and the run does not abort. -/
theorem C7_check_health_never_halts (w : World) (hosts : List Host)
    (hget : w.getHostsOk = true) :
    doHealthCheck w hosts =
      (hosts.map (fun h => Ev.healthCheck h.name), none) := by
  unfold doHealthCheck
  rw [if_pos hget, healthLoop_map]

/-- C7 witness: with every health check failing, all three hosts are
still visited and the command does not halt. -/
theorem C7_check_health_never_halts_witness :
    doHealthCheck wHealthAllFail [hostA, hostB, hostC] =
      ([Ev.healthCheck "a", Ev.healthCheck "b", Ev.healthCheck "c"],
        none) :=
  C7_check_health_never_halts wHealthAllFail [hostA, hostB, hostC] rfl

/-- C9: `vaultInit` treats an environment credential as absent whenever
its string length is at most 1: authentication is attempted iff both the
address and the token have length strictly greater than 1; otherwise the
integration is disabled with a warning (and a nil client). -/
theorem C9_vault_env_length_gate (w : World) (tries : Nat) :
    (0 < countAuth (vaultInit w tries).1 ↔
      (1 < w.vaultAddr.length ∧ 1 < w.vaultToken.length)) ∧
    (¬(1 < w.vaultAddr.length ∧ 1 < w.vaultToken.length) →
      (vaultInit w tries).1 = [Ev.vaultEnvWarning] ∧
        (vaultInit w tries).2.2 = false) := by
  by_cases hcond : 1 < w.vaultAddr.length ∧ 1 < w.vaultToken.length
  · constructor
    · rw [vaultInit, if_pos hcond]
      constructor
      · intro _
        exact hcond
      · intro _
        cases ha : w.authOk tries <;> cases hc : w.configureOk tries <;>
          simp [ha, hc, countAuth, isAuthEv]
    · intro hno
      exact absurd hcond hno
  · constructor
    · rw [vaultInit, if_neg hcond]
      constructor
      · intro h0
        simp [countAuth, isAuthEv] at h0
      · intro hc
        exact absurd hc hcond
    · intro _
      rw [vaultInit, if_neg hcond]
      exact ⟨rfl, rfl⟩

/-- C9 witness: a one-character token (`wShortTok`) disables the vault
integration with a warning; no authentication is attempted. -/
theorem C9_vault_env_length_gate_witness :
    (vaultInit wShortTok 0).1 = [Ev.vaultEnvWarning] ∧
      (vaultInit wShortTok 0).2.2 = false :=
  (C9_vault_env_length_gate wShortTok 0).2 (by decide)

/-- C2 counterexample: the claim says mode `build` triggers zero
push, secret-upload or activation calls for any selected host.  But the
vault block of the loop is not gated by the mode or the dry-run flag:
in mode `build`, for the vault-enabled host `a` with working vault
environment (`wOK`), a `secrets.UploadSecret` call (the
dynamic-credential upload, `Ev.dynUpload`) is made — the number of
secret-upload calls is not zero. -/
theorem C2_cex_build_mode_uploads_secret :
    ¬ (((doDeploy wOK argsBuild [hostVA]).1.countP isSecretUploadCall)
      = 0) := by
  decide

/-- C2 (amended): in mode `build`, or with the dry-run flag set in any
mode, zero push calls, zero *static* secret-upload calls and zero
activation calls are made; the dynamic-credential (vault) secret upload
and the health checks are not gated by the mode or the dry-run flag and
may still occur. -/
theorem C2_build_dry_no_push_static_activate (w : World)
    (a : DeployArgs) (hosts : List Host)
    (hmode : a.dryRun = true ∨ a.switchAction = Mode.build) :
    noPSAEvents (doDeploy w a hosts).1 = true := by
  unfold noPSAEvents
  have hplan : planOf a = ⟨false, false, false, false⟩ := by
    rcases hmode with hd | hm
    · unfold planOf resolvePlan
      rw [hd]
      rfl
    · unfold planOf resolvePlan
      rw [hm]
      cases hd : a.dryRun <;> rfl
  simp only [doDeploy, hplan]
  cases hb : w.buildOk
  · simp [isPSA]
  · simp only [if_pos]
    rw [List.all_append, Bool.and_eq_true]
    refine ⟨?x, ?y⟩
    · simp [isPSA]
    · exact runHosts_all w ⟨false, false, false, false⟩
        a.skipHealthChecks _ initState hosts
        (fun h _ s' => runHost_planFalse_notPSA w a.skipHealthChecks s' h)

/-- C2 witness: a dry-run `switch` over a plain host and a host with a
declared secret performs no push, static-upload or activation call. -/
theorem C2_build_dry_no_push_static_activate_witness :
    noPSAEvents (doDeploy wOK argsDry [hostA, hostS]).1 = true :=
  C2_build_dry_no_push_static_activate wOK argsDry [hostA, hostS]
    (Or.inl rfl)

/-- C8: the result of the dynamic-credential `secrets.UploadSecret`
call is discarded by the driver: the whole deploy run is literally
independent of the upload outcomes (`dynUploadOk`), so a failure is
neither fatal nor reported; concretely, with every dynamic upload
failing (`wDynFail`), the upload for vault host `a` is attempted, no
vault warning is printed, the loop reaches host `b`'s health check and
the invocation does not halt. -/
theorem C8_dyn_upload_result_discarded :
    (∀ (w : World) (f : String → Bool) (a : DeployArgs)
      (hosts : List Host),
        doDeploy { w with dynUploadOk := f } a hosts =
          doDeploy w a hosts) ∧
    (doDeploy wDynFail argsSwitch [hostVA, hostB]).2.2 = none ∧
    Ev.dynUpload "a" ∈ (doDeploy wDynFail argsSwitch [hostVA, hostB]).1 ∧
    Ev.healthCheck "b" ∈
      (doDeploy wDynFail argsSwitch [hostVA, hostB]).1 ∧
    ((doDeploy wDynFail argsSwitch [hostVA, hostB]).1.countP
      (fun e => e == Ev.vaultWarning)) = 0 := by
  refine ⟨?ind, by decide, by decide, by decide, by decide⟩
  intro w f a hosts
  have hu : ∀ (hn : String) (l : List String),
      uploadSecrets { w with dynUploadOk := f } hn l =
        uploadSecrets w hn l := by
    intro hn l
    induction l with
    | nil => rfl
    | cons nm rest ih =>
      unfold uploadSecrets
      rw [ih]
  have hrh : ∀ p sk s h,
      runHost { w with dynUploadOk := f } p sk s h =
        runHost w p sk s h := by
    intro p sk s h
    unfold runHost
    rw [hu h.name h.secrets]
    rfl
  have hr : ∀ p sk s l,
      runHosts { w with dynUploadOk := f } p sk s l =
        runHosts w p sk s l := by
    intro p sk s l
    induction l generalizing s with
    | nil => rfl
    | cons h t ih =>
      rw [runHosts_cons, runHosts_cons, hrh]
      congr 1
      funext s'
      exact ih s'
  simp only [doDeploy, hr]

/-- C10: `assets.Teardown` is reached iff the dispatched command
returned normally: when the deploy loop halts on a health-check failure
(`os.Exit`) or any fatal collaborator error unwinds (panic), the
teardown call after the dispatch never happens; on the fully successful
path it does. -/
theorem C10_teardown_iff_ok (w : World) (c : Cmd) (hosts : List Host) :
    (mainRun w c hosts).2 = Outcome.ok ↔
      Ev.teardown ∈ (mainRun w c hosts).1 := by
  rcases c with a | _
  · unfold mainRun
    cases hh : (doDeploy w a hosts).2.2 with
    | none =>
      simp [hh]
    | some x =>
      cases x <;>
        simp [hh, doDeploy_no_teardown w a hosts]
  · unfold mainRun
    cases hh : (doHealthCheck w hosts).2 with
    | none =>
      simp [hh]
    | some x =>
      cases x <;>
        simp [hh, doHealthCheck_no_teardown w hosts]

/-- C6: for a dynamic-credential-enabled host with an established vault
session whose rekey and temp-file open succeed, the vault block performs
exactly rekey, temp-file write, upload, temp-file removal, in that
order — the temporary credential file is deleted immediately after the
upload attempt, for *every* world (in particular the conclusion does not
depend on `w.dynUploadOk`, i.e. on whether the upload succeeded), and at
the end the local temporary file no longer exists. -/
theorem C6_temp_credential_deleted (w : World) (s : VState) (h : Host)
    (hve : h.vaultEnable = true) (hvc : s.vc = true)
    (hrk : w.rekeyOk h.name = true) (hop : w.openOk = true) :
    (vaultStep w s h).1 =
      [Ev.rekey h.name, Ev.writeTemp, Ev.dynUpload h.name,
        Ev.removeTemp] ∧
    (vaultStep w s h).2.tempFile = false := by
  have hrk2 : (vaultReKey w h).2 = true := by
    rw [vaultReKey, if_pos hrk, if_pos hop]
  have hrk1 : (vaultReKey w h).1 = [Ev.rekey h.name, Ev.writeTemp] := by
    rw [vaultReKey, if_pos hrk, if_pos hop]
  rw [vaultStep, if_pos hve, if_pos hvc, vaultUse, if_pos hvc,
    if_pos hrk2, hrk1]
  exact ⟨rfl, rfl⟩

/-- C6 witness: in the world where every dynamic upload *fails*
(`wDynFail`), the vault block for host `a` still writes and then removes
the temporary file, which does not exist afterwards. -/
theorem C6_temp_credential_deleted_witness :
    (vaultStep wDynFail sEstablished hostVA).1 =
      [Ev.rekey "a", Ev.writeTemp, Ev.dynUpload "a", Ev.removeTemp] ∧
    (vaultStep wDynFail sEstablished hostVA).2.tempFile = false :=
  C6_temp_credential_deleted wDynFail sEstablished hostVA (by decide)
    (by decide) (by decide) (by decide)

/-- C4 counterexample: the claim says the authenticate/configure pair
is invoked at most once per invocation with N ≥ 2 vault-enabled hosts.
But the client is retried whenever it is still nil: with hosts `a`, `b`
both vault-enabled and the first authentication attempt failing
(`wAuthRetry`), `vault.Auth` is attempted twice in one invocation. -/
theorem C4_cex_auth_retried :
    ¬ (countAuth (doDeploy wAuthRetry argsBuild [hostVA, hostVB]).1
      ≤ 1) := by
  decide

/-- C4 (amended): the authenticate/configure pair is attempted at most
once per vault-enabled host (at most N attempts for N vault-enabled
hosts), and it is re-attempted only while no session exists: from any
state with an established session, the whole remaining loop performs
zero authentication attempts and the session is still cached at the
end — once established, authentication/configuration never repeats. -/
theorem C4_session_cached (w : World) (p : Plan) (sk : Bool)
    (l : List Host) (s : VState) :
    (s.vc = true →
      (runHosts w p sk s l).2.1.vc = true ∧
        countAuth (runHosts w p sk s l).1 = 0) ∧
    countAuth (runHosts w p sk s l).1 ≤
      (l.filter (fun h => h.vaultEnable)).length :=
  ⟨fun hvc => runHosts_vc hvc, runHosts_countAuth_le w p sk l s⟩

/-- C4 witness: with a session already established (`sEstablished`),
running the loop over two vault-enabled hosts performs zero
authentication attempts and keeps the session; the attempt count is
also within the vault-enabled-host bound. -/
theorem C4_session_cached_witness :
    ((runHosts wOK ⟨false, false, false, false⟩ true sEstablished
      [hostVA, hostVB]).2.1.vc = true ∧
      countAuth (runHosts wOK ⟨false, false, false, false⟩ true
        sEstablished [hostVA, hostVB]).1 = 0) ∧
    countAuth (runHosts wOK ⟨false, false, false, false⟩ true
      sEstablished [hostVA, hostVB]).1 ≤ 2 := by
  have h := C4_session_cached wOK ⟨false, false, false, false⟩ true
    [hostVA, hostVB] sEstablished
  exact ⟨h.1 (by decide), le_trans h.2 (by decide)⟩

/-- C1: with health checks enabled, if every host before `hbad`
completes cleanly and passes its health check and `hbad`'s health check
fails (all its own per-host operations succeeding), then the run over
`pre ++ hbad :: post` is literally equal to the run over
`pre ++ [hbad]` — the hosts of `post` receive no push, secret-upload or
activation call (every event names a host of `pre ++ [hbad]`), the
process ends with `os.Exit 1`, and the work already done for
`pre ++ [hbad]` is exactly that of the truncated run: nothing is rolled
back or revisited. -/
theorem C1_health_halt (w : World) (a : DeployArgs)
    (pre post : List Host) (hbad : Host)
    (hb : w.buildOk = true) (hsk : a.skipHealthChecks = false)
    (hpre : ∀ h ∈ pre, opsClean w (planOf a) h = true ∧
      w.healthOk h.name = true)
    (hclean : opsClean w (planOf a) hbad = true)
    (hfail : w.healthOk hbad.name = false) :
    doDeploy w a (pre ++ hbad :: post) = doDeploy w a (pre ++ [hbad]) ∧
    (doDeploy w a (pre ++ hbad :: post)).2.2 = some (Halt.exit 1) ∧
    mentionsOnly ((pre ++ [hbad]).map Host.name)
      (doDeploy w a (pre ++ hbad :: post)).1 = true := by
  have hpre' : (runHosts w (planOf a) a.skipHealthChecks initState
      pre).2.2 = none := by
    apply runHosts_clean_none
    intro h hh
    refine ⟨(hpre h hh).1, ?x⟩
    rw [hsk, Bool.false_or]
    exact (hpre h hh).2
  have hhbad : (runHost w (planOf a) a.skipHealthChecks
      (runHosts w (planOf a) a.skipHealthChecks initState pre).2.1
      hbad).2.2 = some (Halt.exit 1) :=
    runHost_health_exit hclean hsk hfail
  obtain ⟨heq, hhalt⟩ :=
    runHosts_cut pre post hbad initState (Halt.exit 1) hpre' hhbad
  have hd1 : doDeploy w a (pre ++ hbad :: post) =
      doDeploy w a (pre ++ [hbad]) := by
    rw [doDeploy_eq w a _ hb, doDeploy_eq w a _ hb, heq]
  refine ⟨hd1, ?h2, ?h3⟩
  · rw [doDeploy_eq w a _ hb, heq]
    exact hhalt
  · rw [hd1, doDeploy_eq w a _ hb]
    unfold mentionsOnly
    rw [List.all_append, Bool.and_eq_true]
    constructor
    · rw [List.all_cons, Bool.and_eq_true]
      refine ⟨rfl, ?z⟩
      cases (planOf a).doAskPass <;> simp [evOkFor, evHost]
    · apply runHosts_evOk
      intro h hh
      exact List.elem_eq_true_of_mem (List.mem_map_of_mem Host.name hh)

/-- C1 witness: hosts `[a, b, c]` in mode `switch` where `b`'s health
check fails: the run equals the run over `[a, b]`, exits with status 1,
and every emitted event names only `a` or `b`. -/
theorem C1_health_halt_witness :
    doDeploy wHealthB argsSwitch ([hostA] ++ hostB :: [hostC]) =
      doDeploy wHealthB argsSwitch ([hostA] ++ [hostB]) ∧
    (doDeploy wHealthB argsSwitch
      ([hostA] ++ hostB :: [hostC])).2.2 = some (Halt.exit 1) ∧
    mentionsOnly (([hostA] ++ [hostB]).map Host.name)
      (doDeploy wHealthB argsSwitch ([hostA] ++ hostB :: [hostC])).1
      = true :=
  C1_health_halt wHealthB argsSwitch [hostA] [hostC] hostB (by decide)
    (by decide) (by decide) (by decide) (by decide)

/-- C3 counterexample: the claim says a failure of the push (remote
transfer) operation is fatal to the entire invocation, aborting
immediately with no call for any subsequent host.  But the driver
discards the result of `nix.Push`: with the transfer to host `a`
failing (`wPushFail`) in mode `switch`, host `b` still receives its
push and the invocation completes with no abnormal halt. -/
theorem C3_cex_push_transfer_not_fatal :
    (doDeploy wPushFail argsSwitch [hostA, hostB]).2.2 = none ∧
    Ev.push "b" ∈ (doDeploy wPushFail argsSwitch [hostA, hostB]).1 := by
  exact ⟨by decide, by decide⟩

/-- C3 (amended): the push transfer's result is discarded, so its
failure is silently ignored (the whole run is independent of
`w.pushOk`); by contrast a static-secret upload failure and an
activation failure are fatal panics, and a panic at any host aborts the
invocation immediately: the run equals the truncated run ending at the
failing host, so subsequent hosts receive no call and already-processed
hosts keep exactly the work already done. -/
theorem C3_fatal_steps :
    (∀ (w : World) (f : String → Bool) (a : DeployArgs)
      (hosts : List Host),
        doDeploy { w with pushOk := f } a hosts = doDeploy w a hosts) ∧
    (∀ (w : World) (hn nm : String) (l : List String),
      w.secretSizeOk hn nm = true → w.staticUploadOk hn nm = false →
      (uploadSecrets w hn (nm :: l)).2 =
        some (Halt.fatal "UploadSecret")) ∧
    (∀ (w : World) (h : Host),
      w.sysPathOk h.name = true → w.activateOk h.name = false →
      (activateConfiguration w h).2 =
        some (Halt.fatal "ActivateConfiguration")) ∧
    (∀ (w : World) (p : Plan) (sk : Bool) (pre post : List Host)
      (h : Host) (s : VState) (r : String),
      (runHosts w p sk s pre).2.2 = none →
      (runHost w p sk (runHosts w p sk s pre).2.1 h).2.2 =
        some (Halt.fatal r) →
      runHosts w p sk s (pre ++ h :: post) =
        runHosts w p sk s (pre ++ [h]) ∧
      (runHosts w p sk s (pre ++ [h])).2.2 = some (Halt.fatal r)) := by
  refine ⟨?c1, ?c2, ?c3, ?c4⟩
  · intro w f a hosts
    have hu : ∀ (hn : String) (l : List String),
        uploadSecrets { w with pushOk := f } hn l =
          uploadSecrets w hn l := by
      intro hn l
      induction l with
      | nil => rfl
      | cons nm rest ih =>
        unfold uploadSecrets
        rw [ih]
    have hrh : ∀ p sk s h,
        runHost { w with pushOk := f } p sk s h =
          runHost w p sk s h := by
      intro p sk s h
      unfold runHost
      rw [hu h.name h.secrets]
      rfl
    have hr : ∀ p sk s l,
        runHosts { w with pushOk := f } p sk s l =
          runHosts w p sk s l := by
      intro p sk s l
      induction l generalizing s with
      | nil => rfl
      | cons h t ih =>
        rw [runHosts_cons, runHosts_cons, hrh]
        congr 1
        funext s'
        exact ih s'
    simp only [doDeploy, hr]
  · intro w hn nm l h1 h2
    unfold uploadSecrets
    rw [if_pos h1, if_neg (by simp [h2])]
  · intro w h h1 h2
    unfold activateConfiguration
    rw [if_pos h1, if_neg (by simp [h2])]
  · intro w p sk pre post h s r h1 h2
    exact runHosts_cut pre post h s (Halt.fatal r) h1 h2

/-- C3 witness: the pushOk-independence, the fatality of a failing
static upload and of a failing activation, and the cut behaviour, each
at a concrete input: with activation failing on host `b`, the run over
`[a, b, c]` equals the run over `[a, b]` and ends in the activation
panic. -/
theorem C3_fatal_steps_witness :
    (doDeploy wPushAllFail argsSwitch [hostA] =
      doDeploy wOK argsSwitch [hostA]) ∧
    (uploadSecrets wUploadFail "s" ["app.env"]).2 =
      some (Halt.fatal "UploadSecret") ∧
    (activateConfiguration wActFail hostB).2 =
      some (Halt.fatal "ActivateConfiguration") ∧
    (runHosts wActFail (planOf argsSwitch) false initState
        ([hostA] ++ hostB :: [hostC]) =
      runHosts wActFail (planOf argsSwitch) false initState
        ([hostA] ++ [hostB]) ∧
      (runHosts wActFail (planOf argsSwitch) false initState
        ([hostA] ++ [hostB])).2.2 =
          some (Halt.fatal "ActivateConfiguration")) :=
  ⟨C3_fatal_steps.1 wOK (fun _ => false) argsSwitch [hostA],
    C3_fatal_steps.2.1 wUploadFail "s" "app.env" [] (by decide)
      (by decide),
    C3_fatal_steps.2.2.1 wActFail hostB (by decide) (by decide),
    C3_fatal_steps.2.2.2 wActFail (planOf argsSwitch) false [hostA]
      [hostC] hostB initState "ActivateConfiguration" (by decide)
      (by decide)⟩

end Morph
